import Mathlib

/-!
Shallow embedding of the puzzle engine of `src/src/App.tsx`
(character sliding puzzle).

The engine lives in the React component `App`: the session state is the
`PuzzleState` record plus the interval handle `timerRef`, and the operations
are `initPuzzle` (board generation and session creation), `handleTileClick`
(move application) and the `setInterval` callback (the per-second tick).
Machine numbers are modelled as `Nat` / `Int` (JavaScript numbers hold these
values exactly in the ranges the program uses). Positions arriving at
`handleTileClick` and the cached `emptyIndex` field are modelled as `Int`,
since `emptyIndex` is initialised to `-1` and JavaScript arithmetic on
possibly-negative numbers matters for out-of-range inputs: `Math.floor (a / b)`
for integer `a` and positive `b` is `Int.fdiv`, and the JavaScript remainder
operator `%` is the truncating remainder `Int.tmod`.
-/

namespace SlidingPuzzle

open scoped List

/-- The `PuzzleState` record of `App.tsx` (the `image`, `showHint` and other
view-only pieces of component state are outside the engine). -/
structure PuzzleState where
  tiles : List Nat
  emptyIndex : Int
  moves : Nat
  seconds : Nat
  isStarted : Bool
  isSolved : Bool
  deriving DecidableEq, Repr

/-- The engine-relevant component state: the `PuzzleState` together with
whether `timerRef` currently holds a live interval. -/
structure AppState where
  puzzle : PuzzleState
  timerOn : Bool
  deriving DecidableEq, Repr

/-- The initial `useState` value: empty board, `emptyIndex = -1`, counters 0,
not started, not solved; `timerRef` starts as `null`. -/
def appInit : AppState :=
  { puzzle :=
      { tiles := []
        emptyIndex := -1
        moves := 0
        seconds := 0
        isStarted := false
        isSolved := false }
    timerOn := false }

/-- `const totalTiles = size * size`. -/
def totalTiles (size : Nat) : Nat := size * size

/-- `Array.from({ length: totalTiles }, (_, i) => i)` — the identity board. -/
def initialTiles (size : Nat) : List Nat := List.range (totalTiles size)

/-- The JavaScript destructuring swap
`[a[i], a[j]] = [a[j], a[i]]` for in-range natural indices: both right-hand
sides are read from the old array, then position `i` and position `j` are
written. -/
def swapAt (l : List Nat) (i j : Nat) : List Nat :=
  (l.set i (l.getD j 0)).set j (l.getD i 0)

/-- The body of `shuffle` in `initPuzzle`: the Fisher–Yates loop
`for (let i = length - 1; i > 0; i--) { j = rand i; swap i j }`,
descending from the argument index. `rand i` models
`Math.floor(Math.random() * (i + 1))`, which always lies in `[0, i]`. -/
def shuffleAux (rand : Nat → Nat) : Nat → List Nat → List Nat
  | 0, l => l
  | i + 1, l => shuffleAux rand i (swapAt l (i + 1) (rand (i + 1)))

/-- `shuffle(array)` of `initPuzzle`, with the random draws made explicit. -/
def shuffle (rand : Nat → Nat) (array : List Nat) : List Nat :=
  shuffleAux rand (array.length - 1) array

/-- `tiles.indexOf(v)`: the index of the first occurrence, `-1` if absent. -/
def jsIndexOf (l : List Nat) (v : Nat) : Int :=
  if v ∈ l then (l.indexOf v : Int) else -1

/-- The nested counting loop of `isSolvable`:
`for i; for (j = i+1; ...) if (flat[i] > flat[j]) inversions++` — the number
of index pairs `(i, j)` with `i < j` whose values are out of order. -/
def countInversions (flat : List Nat) : Nat :=
  ((List.range flat.length).map (fun i =>
    ((List.range flat.length).filter (fun j =>
      i < j && flat.getD i 0 > flat.getD j 0)).length)).sum

/-- `isSolvable(tiles, size)` of `initPuzzle` (parity solvability test).
`totalTiles` is captured from the enclosing `initPuzzle`, which always equals
`size * size` for the `size` passed in. -/
def isSolvable (tiles : List Nat) (size : Nat) : Bool :=
  let flatTiles := tiles.filter (fun t => t != totalTiles size - 1)
  let inversions := countInversions flatTiles
  if size % 2 != 0 then
    inversions % 2 == 0
  else
    let emptyRowFromBottom : Int :=
      (size : Int) - Int.fdiv (jsIndexOf tiles (totalTiles size - 1)) (size : Int)
    if Int.tmod emptyRowFromBottom 2 == 0 then
      inversions % 2 != 0
    else
      inversions % 2 == 0

/-- The `do { shuffledTiles = shuffle(initialTiles) } while (!isSolvable(...)
|| JSON.stringify(shuffledTiles) === JSON.stringify(initialTiles))` rejection
loop. Each attempt uses fresh random draws, modelled by indexing `rand` with
the attempt number; `fuel` bounds the number of attempts so the loop is a
total function, `none` meaning the bound was exhausted. -/
def genLoop (size : Nat) (rand : Nat → Nat → Nat) : Nat → Nat → Option (List Nat)
  | _, 0 => none
  | attempt, fuel + 1 =>
    let shuffledTiles := shuffle (rand attempt) (initialTiles size)
    if isSolvable shuffledTiles size && shuffledTiles != initialTiles size then
      some shuffledTiles
    else
      genLoop size rand (attempt + 1) fuel

/-- The `setPuzzle({...})` payload of `initPuzzle`: the accepted board, the
index of the empty-slot identifier inside it, zeroed counters, started and
not solved. -/
def mkSession (size : Nat) (shuffledTiles : List Nat) : PuzzleState :=
  { tiles := shuffledTiles
    emptyIndex := jsIndexOf shuffledTiles (totalTiles size - 1)
    moves := 0
    seconds := 0
    isStarted := true
    isSolved := false }

/-- `initPuzzle(size)`: run the rejection loop, store the fresh session and
(re)start the interval (`clearInterval` of any previous timer followed by
`setInterval`, hence `timerOn := true`). The previous component state is
ignored entirely — `setPuzzle` overwrites every field. -/
def initPuzzle (size : Nat) (rand : Nat → Nat → Nat) (fuel : Nat)
    (_s : AppState) : Option AppState :=
  match genLoop size rand 0 fuel with
  | none => none
  | some shuffledTiles =>
    some { puzzle := mkSession size shuffledTiles, timerOn := true }

/-- Reading `l[i]` for an `Int` index. For `0 ≤ i < l.length` this is the
array element, exactly as in JavaScript. (JavaScript yields `undefined`
outside that range, which `List Nat` cannot represent; the engine only ever
reads in range along the behaviours the claims quantify over.) -/
def jsGet (l : List Nat) (i : Int) : Nat :=
  if 0 ≤ i then l.getD i.toNat 0 else 0

/-- Writing `l[i] = v` for an `Int` index. For `0 ≤ i < l.length` this is the
array update, exactly as in JavaScript; writes outside that range are dropped
(JavaScript would grow the array or set a non-index property). -/
def jsSet (l : List Nat) (i : Int) (v : Nat) : List Nat :=
  if 0 ≤ i then l.set i.toNat v else l

/-- `Math.floor(index / size)` in `handleTileClick`. -/
def rowOf (size : Nat) (i : Int) : Int := Int.fdiv i (size : Int)

/-- `index % size` in `handleTileClick` (JavaScript truncating remainder). -/
def colOf (size : Nat) (i : Int) : Int := Int.tmod i (size : Int)

/-- The `isAdjacent` expression of `handleTileClick`:
`(Math.abs(row - emptyRow) === 1 && col === emptyCol) ||
 (Math.abs(col - emptyCol) === 1 && row === emptyRow)`. -/
def isAdjacent (size : Nat) (index emptyIdx : Int) : Bool :=
  ((rowOf size index - rowOf size emptyIdx).natAbs == 1
      && colOf size index == colOf size emptyIdx)
    || ((colOf size index - colOf size emptyIdx).natAbs == 1
      && rowOf size index == rowOf size emptyIdx)

/-- `newTiles.every((tile, i) => tile === i)`. -/
def solvedCheck (l : List Nat) : Bool :=
  (List.range l.length).all (fun i => l.getD i 0 == i)

/-- `handleTileClick(index)`: guard on `isStarted`/`isSolved`; adjacency
check; destructuring swap of the clicked and empty positions; solved test;
`clearInterval` when solved; `setPuzzle` with the swapped board, the clicked
position as new empty index, and the move counter bumped. -/
def handleTileClick (gridSize : Nat) (s : AppState) (index : Int) : AppState :=
  if !s.puzzle.isStarted || s.puzzle.isSolved then s
  else
    let emptyIdx := s.puzzle.emptyIndex
    if isAdjacent gridSize index emptyIdx then
      let newTiles :=
        jsSet (jsSet s.puzzle.tiles index (jsGet s.puzzle.tiles emptyIdx))
          emptyIdx (jsGet s.puzzle.tiles index)
      let solved := solvedCheck newTiles
      { puzzle :=
          { s.puzzle with
            tiles := newTiles
            emptyIndex := index
            moves := s.puzzle.moves + 1
            isSolved := solved }
        timerOn := if solved then false else s.timerOn }
    else s

/-- The `setInterval` callback
`setPuzzle(prev => ({ ...prev, seconds: prev.seconds + 1 }))`. The callback
fires only while the interval installed by `initPuzzle` is still live —
`handleTileClick` runs `clearInterval` the moment the board is solved — so a
tick event on a state whose timer is cleared leaves the state unchanged. -/
def tick (s : AppState) : AppState :=
  if s.timerOn then
    { s with puzzle := { s.puzzle with seconds := s.puzzle.seconds + 1 } }
  else s

/-- The two external events a live session receives: a tile click and a
one-second timer tick. -/
inductive Ev where
  | click (index : Int)
  | second
  deriving DecidableEq, Repr

/-- Apply one event to the component state. -/
def stepEv (gridSize : Nat) (s : AppState) (e : Ev) : AppState :=
  match e with
  | Ev.click i => handleTileClick gridSize s i
  | Ev.second => tick s

/-- Apply a sequence of events in order. -/
def runEvents (gridSize : Nat) (s : AppState) (evs : List Ev) : AppState :=
  evs.foldl (stepEv gridSize) s

/-- The component states reachable from the initial mount by session
creation, tile clicks (any integer position) and timer ticks. -/
inductive Reachable (gridSize : Nat) : AppState → Prop
  | start : Reachable gridSize appInit
  | create (s s' : AppState) (rand : Nat → Nat → Nat) (fuel : Nat) :
      Reachable gridSize s → initPuzzle gridSize rand fuel s = some s' →
      Reachable gridSize s'
  | click (s : AppState) (i : Int) :
      Reachable gridSize s → Reachable gridSize (handleTileClick gridSize s i)
  | second (s : AppState) :
      Reachable gridSize s → Reachable gridSize (tick s)

/-! ## Helper lemmas about the list operations -/

theorem length_swapAt (l : List Nat) (i j : Nat) :
    (swapAt l i j).length = l.length := by
  simp [swapAt]

theorem count_set (l : List Nat) (i : Nat) (b v : Nat) (h : i < l.length) :
    (l.set i b).count v + (if l.getD i 0 = v then 1 else 0)
      = l.count v + (if b = v then 1 else 0) := by
  induction l generalizing i with
  | nil => simp at h
  | cons x xs ih =>
    cases i with
    | zero =>
      simp only [List.set_cons_zero, List.getD_cons_zero, List.count_cons]
      by_cases hb : b = v <;> by_cases hx : x = v <;> simp [hb, hx]
    | succ n =>
      simp only [List.set_cons_succ, List.getD_cons_succ, List.count_cons]
      have hn : n < xs.length := by simpa using Nat.lt_of_succ_lt_succ h
      have hxs := ih n hn
      by_cases hx : x = v <;> simp [hx] at hxs ⊢ <;> omega

theorem count_swapAt (l : List Nat) (i j v : Nat)
    (hi : i < l.length) (hj : j < l.length) :
    (swapAt l i j).count v = l.count v := by
  unfold swapAt
  have hj' : j < (l.set i (l.getD j 0)).length := by simpa using hj
  have h2 := count_set (l.set i (l.getD j 0)) j (l.getD i 0) v hj'
  have h1 := count_set l i (l.getD j 0) v hi
  by_cases hij : i = j
  · subst hij
    have hget : (l.set i (l.getD i 0)).getD i 0 = l.getD i 0 := by
      rw [List.getD_eq_getElem _ _ (by simpa using hi), List.getElem_set_self]
    rw [hget] at h2
    omega
  · have hget : (l.set i (l.getD j 0)).getD j 0 = l.getD j 0 := by
      rw [List.getD_eq_getElem _ _ hj', List.getElem_set_of_ne hij]
      exact (List.getD_eq_getElem l 0 hj).symm
    rw [hget] at h2
    by_cases ha : l.getD i 0 = v <;> by_cases hb : l.getD j 0 = v <;>
      simp [ha, hb] at h1 h2 ⊢ <;> omega

theorem perm_swapAt (l : List Nat) (i j : Nat)
    (hi : i < l.length) (hj : j < l.length) : swapAt l i j ~ l :=
  List.perm_iff_count.mpr fun v => count_swapAt l i j v hi hj

theorem perm_shuffleAux (rand : Nat → Nat) (hr : ∀ i, rand i ≤ i) :
    ∀ (n : Nat) (l : List Nat), n < l.length → shuffleAux rand n l ~ l := by
  intro n
  induction n with
  | zero => intro l _; exact List.Perm.refl l
  | succ n ih =>
    intro l h
    have hj : rand (n + 1) < l.length :=
      Nat.lt_of_le_of_lt (hr (n + 1)) h
    have hswap : swapAt l (n + 1) (rand (n + 1)) ~ l := perm_swapAt l _ _ h hj
    have hlen := length_swapAt l (n + 1) (rand (n + 1))
    exact (ih _ (by omega)).trans hswap

theorem perm_shuffle (rand : Nat → Nat) (hr : ∀ i, rand i ≤ i)
    (l : List Nat) : shuffle rand l ~ l := by
  cases l with
  | nil => exact List.Perm.refl _
  | cons x xs =>
    exact perm_shuffleAux rand hr _ _ (by simp)

theorem genLoop_spec (size : Nat) (rand : Nat → Nat → Nat)
    (hr : ∀ a i, rand a i ≤ i) :
    ∀ (fuel attempt : Nat) (tiles : List Nat),
      genLoop size rand attempt fuel = some tiles →
        tiles ~ initialTiles size ∧ isSolvable tiles size = true ∧
          tiles ≠ initialTiles size := by
  intro fuel
  induction fuel with
  | zero => intro a t h; simp [genLoop] at h
  | succ f ih =>
    intro a t h
    rw [genLoop] at h
    split at h
    case isTrue hcond =>
      injection h with h
      subst h
      have hperm := perm_shuffle (rand a) (hr a) (initialTiles size)
      rw [Bool.and_eq_true, bne_iff_ne] at hcond
      exact ⟨hperm, hcond.1, hcond.2⟩
    case isFalse =>
      exact ih _ _ h

theorem solvedCheck_iff (l : List Nat) :
    solvedCheck l = true ↔ l = List.range l.length := by
  unfold solvedCheck
  rw [List.all_eq_true]
  constructor
  · intro h
    apply List.ext_getElem (by simp)
    intro i h1 h2
    have hmem : i ∈ List.range l.length := List.mem_range.mpr h1
    have hi := h i hmem
    rw [beq_iff_eq, List.getD_eq_getElem _ _ h1] at hi
    simpa [List.getElem_range] using hi
  · intro h i hmem
    have h1 : i < l.length := List.mem_range.mp hmem
    rw [beq_iff_eq, List.getD_eq_getElem _ _ h1, List.getElem_of_eq h h1]
    simp [List.getElem_range]

theorem jsIndexOf_of_mem (l : List Nat) (v : Nat) (h : v ∈ l) :
    jsIndexOf l v = (l.indexOf v : Int) := by
  simp [jsIndexOf, h]

theorem getElem?_jsIndexOf (l : List Nat) (v : Nat) (h : v ∈ l) :
    l[(jsIndexOf l v).toNat]? = some v := by
  rw [jsIndexOf_of_mem l v h, Int.toNat_natCast]
  exact List.getElem?_indexOf h

theorem ne_of_isAdjacent {size : Nat} {i e : Int}
    (h : isAdjacent size i e = true) : i ≠ e := by
  intro he
  subst he
  simp [isAdjacent] at h

/-- On nonnegative indices the two JavaScript writes of the destructuring
swap in `handleTileClick` coincide with `swapAt`. -/
theorem jsSwap_eq_swapAt (l : List Nat) (i e : Int)
    (hi : 0 ≤ i) (he : 0 ≤ e) :
    jsSet (jsSet l i (jsGet l e)) e (jsGet l i) = swapAt l i.toNat e.toNat := by
  simp [jsSet, jsGet, swapAt, hi, he]

theorem toNat_ne_of_ne {i e : Int} (hi : 0 ≤ i) (he : 0 ≤ e) (h : i ≠ e) :
    i.toNat ≠ e.toNat := by
  intro hn
  apply h
  omega

theorem handleTileClick_eq_inactive (size : Nat) (s : AppState) (i : Int)
    (h : s.puzzle.isStarted = false ∨ s.puzzle.isSolved = true) :
    handleTileClick size s i = s := by
  rcases h with h | h <;> simp [handleTileClick, h]

theorem handleTileClick_eq_nonadj (size : Nat) (s : AppState) (i : Int)
    (h : isAdjacent size i s.puzzle.emptyIndex = false) :
    handleTileClick size s i = s := by
  unfold handleTileClick
  split
  · rfl
  · simp [h]

theorem handleTileClick_eq_adj (size : Nat) (s : AppState) (i : Int)
    (hstart : s.puzzle.isStarted = true) (hsolv : s.puzzle.isSolved = false)
    (hadj : isAdjacent size i s.puzzle.emptyIndex = true) :
    handleTileClick size s i =
      { puzzle :=
          { tiles := jsSet (jsSet s.puzzle.tiles i
                (jsGet s.puzzle.tiles s.puzzle.emptyIndex))
              s.puzzle.emptyIndex (jsGet s.puzzle.tiles i)
            emptyIndex := i
            moves := s.puzzle.moves + 1
            seconds := s.puzzle.seconds
            isStarted := s.puzzle.isStarted
            isSolved := solvedCheck (jsSet (jsSet s.puzzle.tiles i
                (jsGet s.puzzle.tiles s.puzzle.emptyIndex))
              s.puzzle.emptyIndex (jsGet s.puzzle.tiles i)) }
        timerOn :=
          if solvedCheck (jsSet (jsSet s.puzzle.tiles i
                (jsGet s.puzzle.tiles s.puzzle.emptyIndex))
              s.puzzle.emptyIndex (jsGet s.puzzle.tiles i)) then false
          else s.timerOn } := by
  simp [handleTileClick, hstart, hsolv, hadj]

theorem getElem?_swapAt_fst (l : List Nat) (i j : Nat)
    (hi : i < l.length) (hj : j < l.length) (hij : i ≠ j) :
    (swapAt l i j)[i]? = l[j]? := by
  unfold swapAt
  rw [List.getElem?_set_ne (fun h => hij h.symm),
    List.getElem?_set_eq_of_lt _ (by simpa using hi),
    List.getD_eq_getElem _ _ hj, List.getElem?_eq_getElem hj]

theorem getElem?_swapAt_snd (l : List Nat) (i j : Nat)
    (hi : i < l.length) (hj : j < l.length) : (swapAt l i j)[j]? = l[i]? := by
  unfold swapAt
  rw [List.getElem?_set_eq_of_lt _ (by simpa using hj),
    List.getD_eq_getElem _ _ hi, List.getElem?_eq_getElem hi]

theorem getElem?_swapAt_other (l : List Nat) (i j k : Nat)
    (hki : k ≠ i) (hkj : k ≠ j) : (swapAt l i j)[k]? = l[k]? := by
  unfold swapAt
  rw [List.getElem?_set_ne (fun h => hkj h.symm),
    List.getElem?_set_ne (fun h => hki h.symm)]

/-- The data-model invariant of §3 of the spec, as a predicate on component
states: the board is a permutation of `[0, N²−1]` and the cached empty index
is in range and points at the empty-slot identifier `N²−1`. -/
def SessionInv (size : Nat) (s : AppState) : Prop :=
  List.Perm s.puzzle.tiles (List.range (size * size)) ∧
  0 ≤ s.puzzle.emptyIndex ∧
  s.puzzle.emptyIndex < ((size * size : Nat) : Int) ∧
  s.puzzle.tiles[s.puzzle.emptyIndex.toNat]? = some (size * size - 1)

instance (size : Nat) (s : AppState) : Decidable (SessionInv size s) := by
  unfold SessionInv
  infer_instance

theorem sessionInv_mkSession (size : Nat) (tiles : List Nat) (hsz : 0 < size)
    (hperm : List.Perm tiles (List.range (size * size))) :
    SessionInv size ⟨mkSession size tiles, true⟩ := by
  have hlen : tiles.length = size * size := by simpa using hperm.length_eq
  have hmem : totalTiles size - 1 ∈ tiles := by
    rw [hperm.mem_iff, List.mem_range, totalTiles]
    exact Nat.sub_lt (Nat.mul_pos hsz hsz) Nat.one_pos
  have hidx : tiles.indexOf (totalTiles size - 1) < tiles.length :=
    List.indexOf_lt_length.mpr hmem
  refine ⟨hperm, ?_, ?_, ?_⟩
  · simp [mkSession, jsIndexOf_of_mem _ _ hmem]
  · simp only [mkSession, jsIndexOf_of_mem _ _ hmem]
    rw [hlen] at hidx
    exact_mod_cast hidx
  · show tiles[(jsIndexOf tiles (totalTiles size - 1)).toNat]? = _
    rw [getElem?_jsIndexOf tiles _ hmem, totalTiles]

theorem sessionInv_click (size : Nat) (s : AppState) (i : Int)
    (hinv : SessionInv size s) (hi0 : 0 ≤ i)
    (hi1 : i < ((size * size : Nat) : Int)) :
    SessionInv size (handleTileClick size s i) := by
  obtain ⟨hperm, he0, he1, hget⟩ := hinv
  have hlen : s.puzzle.tiles.length = size * size := by
    simpa using hperm.length_eq
  cases hstart : s.puzzle.isStarted with
  | false =>
    rw [handleTileClick_eq_inactive size s i (Or.inl hstart)]
    exact ⟨hperm, he0, he1, hget⟩
  | true =>
    cases hsolv : s.puzzle.isSolved with
    | true =>
      rw [handleTileClick_eq_inactive size s i (Or.inr hsolv)]
      exact ⟨hperm, he0, he1, hget⟩
    | false =>
      cases hadj : isAdjacent size i s.puzzle.emptyIndex with
      | false =>
        rw [handleTileClick_eq_nonadj size s i hadj]
        exact ⟨hperm, he0, he1, hget⟩
      | true =>
        rw [handleTileClick_eq_adj size s i hstart hsolv hadj]
        rw [jsSwap_eq_swapAt s.puzzle.tiles i s.puzzle.emptyIndex hi0 he0]
        have hiN : i.toNat < s.puzzle.tiles.length := by
          rw [hlen]; omega
        have heN : s.puzzle.emptyIndex.toNat < s.puzzle.tiles.length := by
          rw [hlen]; omega
        have hne : i.toNat ≠ s.puzzle.emptyIndex.toNat :=
          toNat_ne_of_ne hi0 he0 (ne_of_isAdjacent hadj)
        refine ⟨?_, hi0, hi1, ?_⟩
        · exact (perm_swapAt _ _ _ hiN heN).trans hperm
        · show (swapAt s.puzzle.tiles i.toNat s.puzzle.emptyIndex.toNat)[i.toNat]? = _
          rw [getElem?_swapAt_fst _ _ _ hiN heN hne]
          exact hget

theorem sessionInv_tick (size : Nat) (s : AppState)
    (hinv : SessionInv size s) : SessionInv size (tick s) := by
  obtain ⟨hperm, he0, he1, hget⟩ := hinv
  by_cases h : s.timerOn = true <;> simp only [tick, h] <;>
    exact ⟨hperm, he0, he1, hget⟩

theorem sessionInv_runEvents (size : Nat) (evs : List Ev) :
    ∀ s : AppState, SessionInv size s →
      (∀ i : Int, Ev.click i ∈ evs → 0 ≤ i ∧ i < ((size * size : Nat) : Int)) →
      SessionInv size (runEvents size s evs) := by
  induction evs with
  | nil => intro s h _; exact h
  | cons e evs ih =>
    intro s h hin
    cases e with
    | click i =>
      have hi := hin i (by simp)
      simp only [runEvents, List.foldl_cons]
      exact ih _ (sessionInv_click size s i h hi.1 hi.2)
        (fun j hj => hin j (List.mem_cons_of_mem _ hj))
    | second =>
      simp only [runEvents, List.foldl_cons]
      exact ih _ (sessionInv_tick size s h)
        (fun j hj => hin j (List.mem_cons_of_mem _ hj))

theorem initPuzzle_inv (size fuel : Nat) (rand : Nat → Nat → Nat)
    (s0 st : AppState) (h : initPuzzle size rand fuel s0 = some st) :
    ∃ tiles, genLoop size rand 0 fuel = some tiles ∧
      st = ⟨mkSession size tiles, true⟩ := by
  rw [initPuzzle] at h
  cases hg : genLoop size rand 0 fuel with
  | none => rw [hg] at h; cases h
  | some tiles =>
    rw [hg] at h
    injection h with h
    exact ⟨tiles, rfl, h.symm⟩

/-- Concrete random draws that make the first shuffle attempt produce
`[0,1,2,3,4,5,6,8,7]` for a 3×3 board: swap positions 8 and 7, then leave
everything in place. -/
def randSolve : Nat → Nat → Nat := fun _ i => if i == 8 then 7 else i

theorem randSolve_le : ∀ a i, randSolve a i ≤ i := by
  intro _ i
  by_cases h : i = 8 <;> simp [randSolve, h]

/-- The session produced by `initPuzzle 3 randSolve 1`: one move away from
solved, with the empty slot (identifier 8) at index 7. -/
def W1 : AppState :=
  ⟨⟨[0, 1, 2, 3, 4, 5, 6, 8, 7], 7, 0, 0, true, false⟩, true⟩

/-! ## Claim theorems -/

/-- C1: for every supported grid size, any board accepted by the rejection
loop of `initPuzzle` is a permutation of `[0, N²−1]` (each identifier appears
exactly once), differs from the identity board, passes the parity solvability
test, and is stored together with an `emptyIndex` equal to the index of the
empty-slot identifier `N²−1` inside the board. -/
theorem generator_board_valid (size fuel : Nat) (rand : Nat → Nat → Nat)
    (s0 st : AppState) (hsize : size = 3 ∨ size = 4 ∨ size = 5)
    (hr : ∀ a i, rand a i ≤ i)
    (h : initPuzzle size rand fuel s0 = some st) :
    List.Perm st.puzzle.tiles (List.range (size * size)) ∧
    (∀ v, v < size * size → st.puzzle.tiles.count v = 1) ∧
    st.puzzle.tiles ≠ List.range (size * size) ∧
    isSolvable st.puzzle.tiles size = true ∧
    st.puzzle.emptyIndex = ((st.puzzle.tiles.indexOf (size * size - 1) : Nat) : Int) ∧
    st.puzzle.tiles[st.puzzle.emptyIndex.toNat]? = some (size * size - 1) := by
  obtain ⟨tiles, hg, hst⟩ := initPuzzle_inv size fuel rand s0 st h
  subst hst
  obtain ⟨hperm, hsolvable, hne⟩ := genLoop_spec size rand hr fuel 0 tiles hg
  rw [initialTiles, totalTiles] at hperm hne
  have hsz : 0 < size := by rcases hsize with h | h | h <;> omega
  have hmem : size * size - 1 ∈ tiles := by
    rw [hperm.mem_iff, List.mem_range]
    exact Nat.sub_lt (Nat.mul_pos hsz hsz) Nat.one_pos
  obtain ⟨_, _, _, hget⟩ := sessionInv_mkSession size tiles hsz hperm
  refine ⟨hperm, ?_, hne, hsolvable, ?_, hget⟩
  · intro v hv
    show List.count v tiles = 1
    rw [hperm.count_eq v]
    exact List.count_eq_one_of_mem (List.nodup_range _) (List.mem_range.mpr hv)
  · show jsIndexOf tiles (totalTiles size - 1) = ((tiles.indexOf (size * size - 1) : Nat) : Int)
    rw [totalTiles, jsIndexOf_of_mem _ _ hmem]

/-- Witness for C1 at grid size 3 with the concrete draws `randSolve`. -/
theorem generator_board_valid_witness :
    List.Perm W1.puzzle.tiles (List.range (3 * 3)) ∧
    (∀ v, v < 3 * 3 → W1.puzzle.tiles.count v = 1) ∧
    W1.puzzle.tiles ≠ List.range (3 * 3) ∧
    isSolvable W1.puzzle.tiles 3 = true ∧
    W1.puzzle.emptyIndex = ((W1.puzzle.tiles.indexOf (3 * 3 - 1) : Nat) : Int) ∧
    W1.puzzle.tiles[W1.puzzle.emptyIndex.toNat]? = some (3 * 3 - 1) :=
  generator_board_valid 3 1 randSolve appInit W1 (Or.inl rfl) randSolve_le
    (by decide)

/-- C9: `initPuzzle` stores the freshly generated board and its empty-slot
index, resets the move and seconds counters to 0, marks the session started
and unsolved (Active) with a live timer, and does so regardless of the prior
component state — the same fresh state replaces any two prior states. -/
theorem create_fresh_session (size fuel : Nat) (rand : Nat → Nat → Nat)
    (s1 s2 st : AppState) (_hsize : size = 3 ∨ size = 4 ∨ size = 5)
    (h : initPuzzle size rand fuel s1 = some st) :
    initPuzzle size rand fuel s2 = some st ∧
    genLoop size rand 0 fuel = some st.puzzle.tiles ∧
    st.puzzle.emptyIndex = jsIndexOf st.puzzle.tiles (totalTiles size - 1) ∧
    st.puzzle.moves = 0 ∧ st.puzzle.seconds = 0 ∧
    st.puzzle.isStarted = true ∧ st.puzzle.isSolved = false ∧
    st.timerOn = true := by
  obtain ⟨tiles, hg, hst⟩ := initPuzzle_inv size fuel rand s1 st h
  subst hst
  exact ⟨by rw [initPuzzle, hg], hg, rfl, rfl, rfl, rfl, rfl, rfl⟩

/-- Witness for C9: creating a fresh 3×3 session from two different prior
states yields the same Active snapshot `W1`. -/
theorem create_fresh_session_witness :
    initPuzzle 3 randSolve 1 W1 = some W1 ∧
    genLoop 3 randSolve 0 1 = some W1.puzzle.tiles ∧
    W1.puzzle.emptyIndex = jsIndexOf W1.puzzle.tiles (totalTiles 3 - 1) ∧
    W1.puzzle.moves = 0 ∧ W1.puzzle.seconds = 0 ∧
    W1.puzzle.isStarted = true ∧ W1.puzzle.isSolved = false ∧
    W1.timerOn = true :=
  create_fresh_session 3 1 randSolve appInit W1 W1 (Or.inl rfl) (by decide)

/-- C4: every state reached from a fresh session by a sequence of clicks on
in-range positions and timer ticks keeps the board a permutation of
`[0, N²−1]`, with the cached `emptyIndex` in range and pointing at the
empty-slot identifier `N²−1` inside the board. -/
theorem board_invariant_reachable (size fuel : Nat) (rand : Nat → Nat → Nat)
    (s0 s1 : AppState) (evs : List Ev)
    (hsz : 0 < size) (hr : ∀ a i, rand a i ≤ i)
    (hinit : initPuzzle size rand fuel s0 = some s1)
    (hevs : ∀ i : Int, Ev.click i ∈ evs →
      0 ≤ i ∧ i < ((size * size : Nat) : Int)) :
    List.Perm (runEvents size s1 evs).puzzle.tiles (List.range (size * size)) ∧
    0 ≤ (runEvents size s1 evs).puzzle.emptyIndex ∧
    (runEvents size s1 evs).puzzle.emptyIndex < ((size * size : Nat) : Int) ∧
    (runEvents size s1 evs).puzzle.tiles[(runEvents size s1 evs).puzzle.emptyIndex.toNat]?
      = some (size * size - 1) := by
  obtain ⟨tiles, hg, hst⟩ := initPuzzle_inv size fuel rand s0 s1 hinit
  subst hst
  obtain ⟨hperm, _, _⟩ := genLoop_spec size rand hr fuel 0 tiles hg
  rw [initialTiles, totalTiles] at hperm
  have hinv := sessionInv_mkSession size tiles hsz hperm
  exact sessionInv_runEvents size evs _ hinv hevs

/-- Witness for C4: from the fresh session `W1`, click position 8 (a legal
move that solves the board) and let one tick arrive. -/
theorem board_invariant_reachable_witness :
    List.Perm (runEvents 3 W1 [Ev.click 8, Ev.second]).puzzle.tiles
        (List.range (3 * 3)) ∧
    0 ≤ (runEvents 3 W1 [Ev.click 8, Ev.second]).puzzle.emptyIndex ∧
    (runEvents 3 W1 [Ev.click 8, Ev.second]).puzzle.emptyIndex
        < ((3 * 3 : Nat) : Int) ∧
    (runEvents 3 W1
          [Ev.click 8, Ev.second]).puzzle.tiles[(runEvents 3 W1
          [Ev.click 8, Ev.second]).puzzle.emptyIndex.toNat]?
      = some (3 * 3 - 1) :=
  board_invariant_reachable 3 1 randSolve appInit W1 [Ev.click 8, Ev.second]
    (by decide) randSolve_le (by decide)
    (by
      intro i hi
      simp only [List.mem_cons, List.not_mem_nil, or_false] at hi
      rcases hi with hi | hi
      · injection hi with hi
        subst hi
        decide
      · cases hi)

/-- Auxiliary invariant behind C6: every reachable Solved component state
has no live interval, because `handleTileClick` runs `clearInterval` in the
very update that sets the Solved flag. -/
theorem solved_timerOff (gs : Nat) (s : AppState) (h : Reachable gs s) :
    s.puzzle.isSolved = true → s.timerOn = false := by
  induction h with
  | start => intro hs; cases hs
  | create s s' rand fuel _ hinit _ =>
    intro hs
    obtain ⟨tiles, _, hst⟩ := initPuzzle_inv _ _ _ _ _ hinit
    subst hst
    cases hs
  | click s i _ ih =>
    intro hs
    cases hstart : s.puzzle.isStarted with
    | false =>
      rw [handleTileClick_eq_inactive _ _ _ (Or.inl hstart)] at hs ⊢
      exact ih hs
    | true =>
      cases hsolv : s.puzzle.isSolved with
      | true =>
        rw [handleTileClick_eq_inactive _ _ _ (Or.inr hsolv)] at hs ⊢
        exact ih hs
      | false =>
        cases hadj : isAdjacent gs i s.puzzle.emptyIndex with
        | false =>
          rw [handleTileClick_eq_nonadj _ _ _ hadj] at hs ⊢
          exact ih hs
        | true =>
          rw [handleTileClick_eq_adj _ _ _ hstart hsolv hadj] at hs ⊢
          simp only at hs
          simp [hs]
  | second s _ ih =>
    intro hs
    unfold tick at hs ⊢
    by_cases ht : s.timerOn = true
    · rw [if_pos ht] at hs ⊢
      exact ih hs
    · rw [if_neg ht] at hs ⊢
      exact ih hs

theorem tmod_two_beq_zero (k : Nat) :
    (Int.tmod (k : Int) 2 == 0) = (k % 2 == 0) := by
  have h : Int.tmod (k : Int) 2 = ((k % 2 : Nat) : Int) := by
    exact_mod_cast (Int.ofNat_tmod k 2).symm
  rw [h]
  rcases Nat.mod_two_eq_zero_or_one k with h2 | h2 <;> rw [h2] <;> decide

/-- C2: the solvability test counts, over the board with the empty-slot
identifier `N²−1` filtered out, the index pairs `(i, j)` with `i < j` whose
values are out of order (`countInversions`); for odd `N` it accepts exactly
the boards with an even inversion count, and for even `N` it accepts exactly
when `N − (row of the empty slot from the top)` being even XORs with the
inversion count being even. -/
theorem isSolvable_parity_characterization (size : Nat) (tiles : List Nat)
    (hsz : 0 < size) (hperm : List.Perm tiles (List.range (size * size))) :
    (size % 2 = 1 →
      (isSolvable tiles size = true ↔
        Even (countInversions (tiles.filter (fun t => t != size * size - 1))))) ∧
    (size % 2 = 0 →
      (isSolvable tiles size = true ↔
        Xor' (Even (size - tiles.indexOf (size * size - 1) / size))
          (Even (countInversions
            (tiles.filter (fun t => t != size * size - 1)))))) := by
  have hlen : tiles.length = size * size := by simpa using hperm.length_eq
  constructor
  · intro hodd
    have hc : ((size % 2 != 0) = true) := by simp [hodd]
    simp only [isSolvable, totalTiles]
    rw [if_pos hc, beq_iff_eq, Nat.even_iff]
  · intro heven
    have hc : ¬ ((size % 2 != 0) = true) := by simp [heven]
    have hmem : size * size - 1 ∈ tiles := by
      rw [hperm.mem_iff, List.mem_range]
      exact Nat.sub_lt (Nat.mul_pos hsz hsz) Nat.one_pos
    have hidx0 : tiles.indexOf (size * size - 1) < tiles.length :=
      List.indexOf_lt_length.mpr hmem
    have hidxlt : tiles.indexOf (size * size - 1) < size * size := by omega
    have hrowlt : tiles.indexOf (size * size - 1) / size < size :=
      (Nat.div_lt_iff_lt_mul hsz).mpr hidxlt
    simp only [isSolvable, totalTiles]
    rw [if_neg hc, jsIndexOf_of_mem _ _ hmem]
    have hfd : Int.fdiv ((tiles.indexOf (size * size - 1) : Nat) : Int) (size : Int)
        = ((tiles.indexOf (size * size - 1) / size : Nat) : Int) := by
      exact_mod_cast (Int.ofNat_fdiv (tiles.indexOf (size * size - 1)) size).symm
    rw [hfd]
    have hsub : (size : Int) - ((tiles.indexOf (size * size - 1) / size : Nat) : Int)
        = ((size - tiles.indexOf (size * size - 1) / size : Nat) : Int) := by
      omega
    rw [hsub, tmod_two_beq_zero]
    by_cases hk : (size - tiles.indexOf (size * size - 1) / size) % 2 = 0
    · rw [if_pos (by simp [hk]), bne_iff_ne]
      simp only [Xor', Nat.even_iff, hk]
      simp
    · have hk1 : (size - tiles.indexOf (size * size - 1) / size) % 2 = 1 := by
        rcases Nat.mod_two_eq_zero_or_one
            (size - tiles.indexOf (size * size - 1) / size) with h2 | h2
        · exact absurd h2 hk
        · exact h2
      rw [if_neg (by simp [hk1]), beq_iff_eq]
      simp only [Xor', Nat.even_iff, hk1]
      simp

/-- Witness for C2 at grid size 3 with the one-move-from-solved board. -/
theorem isSolvable_parity_characterization_witness :
    (3 % 2 = 1 →
      (isSolvable [0, 1, 2, 3, 4, 5, 6, 8, 7] 3 = true ↔
        Even (countInversions
          (List.filter (fun t => t != 3 * 3 - 1) [0, 1, 2, 3, 4, 5, 6, 8, 7])))) ∧
    (3 % 2 = 0 →
      (isSolvable [0, 1, 2, 3, 4, 5, 6, 8, 7] 3 = true ↔
        Xor' (Even (3 - List.indexOf (3 * 3 - 1) [0, 1, 2, 3, 4, 5, 6, 8, 7] / 3))
          (Even (countInversions
            (List.filter (fun t => t != 3 * 3 - 1) [0, 1, 2, 3, 4, 5, 6, 8, 7]))))) :=
  isSolvable_parity_characterization 3 [0, 1, 2, 3, 4, 5, 6, 8, 7]
    (by decide) (by decide)

/-- C6: once a reachable component state is Solved, a timer tick is a no-op:
`handleTileClick` cleared the interval when the board became solved, so no
further tick changes any field — in particular `seconds` is frozen at its
value at the moment of solution. -/
theorem tick_after_solved_noop (gs : Nat) (s : AppState)
    (hreach : Reachable gs s) (hs : s.puzzle.isSolved = true) :
    tick s = s := by
  have hoff := solved_timerOff gs s hreach hs
  simp [tick, hoff]

/-- Witness for C6: solve the concrete 3×3 session `W1` by clicking
position 8; a tick on the resulting Solved state changes nothing. -/
theorem tick_after_solved_noop_witness :
    tick (handleTileClick 3 W1 8) = handleTileClick 3 W1 8 :=
  tick_after_solved_noop 3 (handleTileClick 3 W1 8)
    (Reachable.click W1 8
      (Reachable.create appInit W1 randSolve 1 Reachable.start (by decide)))
    (by decide)

/-- C3: on an Active session, a click on an in-range position adjacent to
the empty slot swaps exactly the two board entries at the clicked and empty
positions (all other entries and the length are unchanged), increments the
move counter by exactly 1, moves `emptyIndex` to the clicked position, keeps
`seconds`, and sets the Solved flag exactly when the new board is the
identity sequence. -/
theorem applyMove_legal_effect (size : Nat) (s : AppState) (index : Int)
    (hstart : s.puzzle.isStarted = true) (hsolv : s.puzzle.isSolved = false)
    (hlen : s.puzzle.tiles.length = size * size)
    (hi0 : 0 ≤ index) (hi1 : index < ((size * size : Nat) : Int))
    (he0 : 0 ≤ s.puzzle.emptyIndex)
    (he1 : s.puzzle.emptyIndex < ((size * size : Nat) : Int))
    (hadj : isAdjacent size index s.puzzle.emptyIndex = true) :
    (handleTileClick size s index).puzzle.tiles[index.toNat]?
        = s.puzzle.tiles[s.puzzle.emptyIndex.toNat]? ∧
    (handleTileClick size s index).puzzle.tiles[s.puzzle.emptyIndex.toNat]?
        = s.puzzle.tiles[index.toNat]? ∧
    (∀ k : Nat, k ≠ index.toNat → k ≠ s.puzzle.emptyIndex.toNat →
      (handleTileClick size s index).puzzle.tiles[k]? = s.puzzle.tiles[k]?) ∧
    (handleTileClick size s index).puzzle.tiles.length = s.puzzle.tiles.length ∧
    (handleTileClick size s index).puzzle.moves = s.puzzle.moves + 1 ∧
    (handleTileClick size s index).puzzle.emptyIndex = index ∧
    (handleTileClick size s index).puzzle.seconds = s.puzzle.seconds ∧
    ((handleTileClick size s index).puzzle.isSolved = true ↔
      (handleTileClick size s index).puzzle.tiles = List.range (size * size)) := by
  rw [handleTileClick_eq_adj size s index hstart hsolv hadj,
    jsSwap_eq_swapAt _ _ _ hi0 he0]
  have hiN : index.toNat < s.puzzle.tiles.length := by rw [hlen]; omega
  have heN : s.puzzle.emptyIndex.toNat < s.puzzle.tiles.length := by
    rw [hlen]; omega
  have hne : index.toNat ≠ s.puzzle.emptyIndex.toNat :=
    toNat_ne_of_ne hi0 he0 (ne_of_isAdjacent hadj)
  refine ⟨?_, ?_, ?_, ?_, rfl, rfl, rfl, ?_⟩
  · exact getElem?_swapAt_fst _ _ _ hiN heN hne
  · exact getElem?_swapAt_snd _ _ _ hiN heN
  · intro k hk1 hk2
    exact getElem?_swapAt_other _ _ _ k hk1 hk2
  · exact length_swapAt _ _ _
  · show solvedCheck (swapAt s.puzzle.tiles index.toNat s.puzzle.emptyIndex.toNat) = true ↔
      swapAt s.puzzle.tiles index.toNat s.puzzle.emptyIndex.toNat = List.range (size * size)
    rw [solvedCheck_iff, length_swapAt, hlen]

/-- Witness for C3: the spec scenario — clicking position 8 on the session
`W1` (board `[0,1,2,3,4,5,6,8,7]`, empty at 7) swaps entries 7 and 8,
producing the identity board, Solved, with the move counter at 1. -/
theorem applyMove_legal_effect_witness :
    ((handleTileClick 3 W1 8).puzzle.tiles = List.range (3 * 3) ∧
      (handleTileClick 3 W1 8).puzzle.isSolved = true ∧
      (handleTileClick 3 W1 8).puzzle.moves = 1) ∧
    ((handleTileClick 3 W1 8).puzzle.tiles[(8 : Int).toNat]?
        = W1.puzzle.tiles[W1.puzzle.emptyIndex.toNat]? ∧
      (handleTileClick 3 W1 8).puzzle.tiles[W1.puzzle.emptyIndex.toNat]?
        = W1.puzzle.tiles[(8 : Int).toNat]? ∧
      (∀ k : Nat, k ≠ (8 : Int).toNat → k ≠ W1.puzzle.emptyIndex.toNat →
        (handleTileClick 3 W1 8).puzzle.tiles[k]? = W1.puzzle.tiles[k]?) ∧
      (handleTileClick 3 W1 8).puzzle.tiles.length = W1.puzzle.tiles.length ∧
      (handleTileClick 3 W1 8).puzzle.moves = W1.puzzle.moves + 1 ∧
      (handleTileClick 3 W1 8).puzzle.emptyIndex = 8 ∧
      (handleTileClick 3 W1 8).puzzle.seconds = W1.puzzle.seconds ∧
      ((handleTileClick 3 W1 8).puzzle.isSolved = true ↔
        (handleTileClick 3 W1 8).puzzle.tiles = List.range (3 * 3))) :=
  ⟨by decide,
    applyMove_legal_effect 3 W1 8 (by decide) (by decide) (by decide)
      (by decide) (by decide) (by decide) (by decide) (by decide)⟩

/-- C5: for every Active session and every in-range target position that is
not row/column-adjacent to the empty slot (this includes diagonal neighbours
and the empty slot itself, for which the adjacency expression is false),
`handleTileClick` returns the state unchanged in every component, and — being
a total function — raises no error. -/
theorem applyMove_nonadjacent_noop (size : Nat) (s : AppState) (index : Int)
    (_hstart : s.puzzle.isStarted = true) (_hsolv : s.puzzle.isSolved = false)
    (_hi0 : 0 ≤ index) (_hi1 : index < ((size * size : Nat) : Int))
    (hadj : isAdjacent size index s.puzzle.emptyIndex = false) :
    handleTileClick size s index = s :=
  handleTileClick_eq_nonadj size s index hadj

/-- Witness for C5: the spec scenario — N = 3, board
`[0,1,2,3,4,5,6,8,7]` with the empty slot at index 7, clicking position 0
(not adjacent) leaves the state unchanged. -/
theorem applyMove_nonadjacent_noop_witness :
    handleTileClick 3 ⟨⟨[0, 1, 2, 3, 4, 5, 6, 8, 7], 7, 0, 0, true, false⟩, true⟩ 0
      = ⟨⟨[0, 1, 2, 3, 4, 5, 6, 8, 7], 7, 0, 0, true, false⟩, true⟩ :=
  applyMove_nonadjacent_noop 3
    ⟨⟨[0, 1, 2, 3, 4, 5, 6, 8, 7], 7, 0, 0, true, false⟩, true⟩ 0
    (by decide) (by decide) (by decide) (by decide) (by decide)

/-- C8: `handleTileClick` called while the session is Uninitialized
(`isStarted = false`) or Solved (`isSolved = true`) returns the state
unchanged: the first guard of the handler rejects the click. -/
theorem applyMove_inactive_noop (size : Nat) (s : AppState) (index : Int)
    (h : s.puzzle.isStarted = false ∨ s.puzzle.isSolved = true) :
    handleTileClick size s index = s := by
  rcases h with h | h <;> simp [handleTileClick, h]

/-- Witness for C8: a click on the freshly mounted (Uninitialized) component
state is a no-op. -/
theorem applyMove_inactive_noop_witness :
    handleTileClick 3 appInit 4 = appInit :=
  applyMove_inactive_noop 3 appInit 4 (Or.inl (by decide))

/-- C10: a tick applied to an Active session changes at most the `seconds`
field: the board, the empty index, the move counter and the state flags are
untouched (and when the interval is live, `seconds` increases by exactly 1). -/
theorem tick_frame_effect (s : AppState)
    (_hstart : s.puzzle.isStarted = true) (_hsolv : s.puzzle.isSolved = false) :
    (tick s).puzzle.tiles = s.puzzle.tiles ∧
    (tick s).puzzle.emptyIndex = s.puzzle.emptyIndex ∧
    (tick s).puzzle.moves = s.puzzle.moves ∧
    (tick s).puzzle.isStarted = s.puzzle.isStarted ∧
    (tick s).puzzle.isSolved = s.puzzle.isSolved ∧
    (tick s).timerOn = s.timerOn ∧
    (s.timerOn = true → (tick s).puzzle.seconds = s.puzzle.seconds + 1) := by
  by_cases h : s.timerOn = true <;> simp [tick, h]

/-- Witness for C10: a tick on a live Active session. -/
theorem tick_frame_effect_witness :
    (tick ⟨⟨[0, 1, 2, 3, 4, 5, 6, 8, 7], 7, 2, 5, true, false⟩, true⟩).puzzle.tiles
        = [0, 1, 2, 3, 4, 5, 6, 8, 7] ∧
      (tick ⟨⟨[0, 1, 2, 3, 4, 5, 6, 8, 7], 7, 2, 5, true, false⟩, true⟩).puzzle.seconds = 6 := by
  have h := tick_frame_effect
    ⟨⟨[0, 1, 2, 3, 4, 5, 6, 8, 7], 7, 2, 5, true, false⟩, true⟩
    (by decide) (by decide)
  exact ⟨h.1, h.2.2.2.2.2.2 (by decide)⟩

/-- C7 fails on the code: an out-of-range position can pass the adjacency
arithmetic. With the empty slot at index 6 (bottom-left of a 3×3 board), the
out-of-range position 9 has row 3, column 0 — same column, adjacent row — so
the handler runs the move: the move counter increments and `emptyIndex`
becomes the out-of-range 9, changing the snapshot. -/
theorem applyMove_out_of_range_counterexample :
    ((9 : Int) < 0 ∨ ((3 * 3 : Nat) : Int) ≤ 9) ∧
    (⟨⟨[0, 1, 2, 3, 4, 5, 8, 6, 7], 6, 0, 0, true, false⟩,
        true⟩ : AppState).puzzle.moves = 0 ∧
    (handleTileClick 3
        ⟨⟨[0, 1, 2, 3, 4, 5, 8, 6, 7], 6, 0, 0, true, false⟩, true⟩
        9).puzzle.moves = 1 ∧
    (handleTileClick 3
        ⟨⟨[0, 1, 2, 3, 4, 5, 8, 6, 7], 6, 0, 0, true, false⟩, true⟩
        9).puzzle.emptyIndex = 9 := by
  decide

/-- C7 amended: an out-of-range position that fails the row/column adjacency
arithmetic against the empty slot is a silent no-op; but an out-of-range
position that passes it (such as `emptyIndex + N` when the empty slot is in
the bottom row) is executed like a move on an Active session: the move
counter increments and `emptyIndex` is set to the out-of-range position. -/
theorem applyMove_out_of_range_amended (size : Nat) (s : AppState)
    (index : Int) (_hrange : index < 0 ∨ ((size * size : Nat) : Int) ≤ index) :
    (isAdjacent size index s.puzzle.emptyIndex = false →
      handleTileClick size s index = s) ∧
    (s.puzzle.isStarted = true → s.puzzle.isSolved = false →
      isAdjacent size index s.puzzle.emptyIndex = true →
      (handleTileClick size s index).puzzle.moves = s.puzzle.moves + 1 ∧
        (handleTileClick size s index).puzzle.emptyIndex = index) := by
  constructor
  · intro hadj
    exact handleTileClick_eq_nonadj size s index hadj
  · intro hstart hsolv hadj
    rw [handleTileClick_eq_adj size s index hstart hsolv hadj]
    constructor <;> rfl

/-- Witness for the amended C7, at the counterexample input. -/
theorem applyMove_out_of_range_amended_witness :
    (isAdjacent 3 9
        (⟨⟨[0, 1, 2, 3, 4, 5, 8, 6, 7], 6, 0, 0, true, false⟩,
          true⟩ : AppState).puzzle.emptyIndex = false →
      handleTileClick 3
          ⟨⟨[0, 1, 2, 3, 4, 5, 8, 6, 7], 6, 0, 0, true, false⟩, true⟩ 9
        = ⟨⟨[0, 1, 2, 3, 4, 5, 8, 6, 7], 6, 0, 0, true, false⟩, true⟩) ∧
    ((⟨⟨[0, 1, 2, 3, 4, 5, 8, 6, 7], 6, 0, 0, true, false⟩,
        true⟩ : AppState).puzzle.isStarted = true →
      (⟨⟨[0, 1, 2, 3, 4, 5, 8, 6, 7], 6, 0, 0, true, false⟩,
        true⟩ : AppState).puzzle.isSolved = false →
      isAdjacent 3 9
        (⟨⟨[0, 1, 2, 3, 4, 5, 8, 6, 7], 6, 0, 0, true, false⟩,
          true⟩ : AppState).puzzle.emptyIndex = true →
      (handleTileClick 3
          ⟨⟨[0, 1, 2, 3, 4, 5, 8, 6, 7], 6, 0, 0, true, false⟩, true⟩
          9).puzzle.moves
        = (⟨⟨[0, 1, 2, 3, 4, 5, 8, 6, 7], 6, 0, 0, true, false⟩,
            true⟩ : AppState).puzzle.moves + 1 ∧
      (handleTileClick 3
          ⟨⟨[0, 1, 2, 3, 4, 5, 8, 6, 7], 6, 0, 0, true, false⟩, true⟩
          9).puzzle.emptyIndex = 9) :=
  applyMove_out_of_range_amended 3
    ⟨⟨[0, 1, 2, 3, 4, 5, 8, 6, 7], 6, 0, 0, true, false⟩, true⟩ 9
    (Or.inr (by decide))

end SlidingPuzzle
